import Mathlib

/-!
Verification of the narrative-generation pipeline in
src/data_processing/data_processing.py.

The script is a pandas batch job: three raw sources (logon, device, http)
are normalized into one canonical event shape, enriched with a user role
via a left join, concatenated and stably sorted by (user_id, timestamp),
grouped by (user_id, day), and each bucket is turned into one narrative
string by a single-pass stateful reduction with a web-activity buffer.

The shallow embedding below mirrors the source:
- `Event` is the canonical event row (timestamps as seconds, so that
  strftime and day arithmetic are plain `Nat` operations).
- A row whose raw `user` field lacks the `/` separator gets a missing
  (`none`, i.e. NaN) `user_id`, exactly as `.str.split('/').str[1]` does.
- Python string splitting (`url.split('//')[-1].split('/')[0]`,
  `user.split('/')[1]`) is embedded as structural recursion on `List Char`
  so that every definition evaluates by kernel reduction.
- The stable sorts of the source (`pandas.sort_values` on two keys, which
  delegates to the stable `numpy.lexsort`; `Series.mode()`, which returns
  the maximal-count values sorted ascending; `Counter.most_common`, which
  is a stable descending sort by count in first-insertion order) are all
  modelled with `List.insertionSort`, a stable sort: a stable sort's
  output is uniquely determined by the comparison relation, so this is
  faithful to the library primitives used by the source.
-/

namespace DataProcessing

open List

/-- Canonical event row, as assembled by `generate_narratives`:
`[timestamp, user_id, role, pc, activity_type]` plus `url` for web rows.
Timestamps are seconds (pandas datetimes totally ordered by instant);
`user_id` is `Option String` because `.str.split('/').str[1]` yields NaN
for a field without the separator. Non-http rows carry an empty `url`. -/
structure Event where
  timestamp : Nat
  user_id : Option String
  role : String
  pc : String
  activity_type : String
  url : String := ""
deriving DecidableEq, Inhabited, Repr

/-- Zero-padded two-digit rendering of a number below 100, as `strftime` does. -/
def pad2 (n : Nat) : String :=
  if n < 10 then "0" ++ toString n else toString n

/-- `timestamp.strftime('%H:%M:%S')` on a timestamp counted in seconds. -/
def strftimeHMS (t : Nat) : String :=
  pad2 ((t % 86400) / 3600) ++ ":" ++ pad2 ((t % 3600) / 60) ++ ":" ++ pad2 (t % 60)

/-- Python `s.split(c)` for a one-character separator `c`, on the
character list of the string: `"a/b//".split("/") == ["a","b","",""]`. -/
def splitCh (c : Char) : List Char → List (List Char)
  | [] => [[]]
  | x :: xs =>
    if x = c then [] :: splitCh c xs
    else
      match splitCh c xs with
      | [] => [[x]]
      | t :: ts => (x :: t) :: ts

/-- Python `s.split(cd)` for a two-character separator (here always `"//"`):
left-to-right scan over non-overlapping occurrences. -/
def split2 (c d : Char) : List Char → List (List Char)
  | [] => [[]]
  | [x] => [[x]]
  | x :: y :: xs =>
    if x = c ∧ y = d then [] :: split2 c d xs
    else
      match split2 c d (y :: xs) with
      | [] => [[x]]
      | t :: ts => (x :: t) :: ts

/-- `raw_user.split('/')` as a list of strings. -/
def pySplitSlash (s : String) : List String :=
  (splitCh '/' s.data).map String.mk

/-- `df['user'].str.split('/').str[1]` for one raw `user` cell: the second
component when the separator occurs, NaN (`none`) otherwise. -/
def extractUserId (user : String) : Option String :=
  (pySplitSlash user)[1]?

/-- `item['url'].split('//')[-1].split('/')[0]`: drop everything up to the
last `"//"`, then keep the part before the next `/`. Python's `split`
never returns an empty list, so the `[-1]` and `[0]` indexings are total;
`getLastD`/`headD` mirror that. -/
def domainOf (url : String) : String :=
  String.mk ((splitCh '/' ((split2 '/' '/' url.data).getLastD [])).headD [])

/-- One `Counter`/value-count step: increment the entry of key `k`, or
append a fresh `(k, 1)` entry at the end. Python dicts (hence `Counter`)
keep keys in first-insertion order, which this preserves. -/
def bump : List (String × Nat) → String → List (String × Nat)
  | [], k => [(k, 1)]
  | p :: t, k => if p.1 = k then (p.1, p.2 + 1) :: t else p :: bump t k

/-- `collections.Counter(xs)` as an association list in first-occurrence
order of the keys. -/
def counterList (xs : List String) : List (String × Nat) :=
  xs.foldl bump []

/-- Count-descending comparison used by `Counter.most_common`:
`sorted(items, key=count, reverse=True)` keeps `p` before `q` when
`q.2 ≤ p.2`. -/
def cntGE (p q : String × Nat) : Prop := q.2 ≤ p.2

instance : DecidableRel cntGE := fun p q => Nat.decLe q.2 p.2

instance : IsTrans (String × Nat) cntGE :=
  ⟨fun _ _ _ h1 h2 => Nat.le_trans h2 h1⟩

instance : IsTotal (String × Nat) cntGE :=
  ⟨fun p q => (Nat.le_total q.2 p.2).imp id id⟩

/-- `Counter.most_common(n)`: stable descending sort by count (ties keep
first-insertion order), then the first `n` items. -/
def most_common (n : Nat) (c : List (String × Nat)) : List (String × Nat) :=
  (List.insertionSort cntGE c).take n

/-- The per-flush `domain_counts` local of `flush_web_buffer`. -/
def domain_counts (buf : List Event) : List (String × Nat) :=
  counterList (buf.map (fun e => domainOf e.url))

/-- The per-flush `top_domains` local: `domain_counts.most_common(3)`. -/
def top_domains (buf : List Event) : List (String × Nat) :=
  most_common 3 (domain_counts buf)

/-- The per-flush `top_domains_str` local:
`", ".join(f"{domain} ({count} times)" for ...)`. -/
def top_domains_str (tds : List (String × Nat)) : String :=
  ", ".intercalate (tds.map (fun p => s!"{p.1} ({p.2} times)"))

/-- The `flush_web_buffer` closure: the sentences it appends to
`narrative_parts` for a given buffer (none when the buffer is empty);
the caller's buffer is cleared afterwards. -/
def flush_web_buffer (buf : List Event) : List String :=
  if buf.isEmpty then []
  else
    let start_time := strftimeHMS (buf.headD default).timestamp
    let end_time := strftimeHMS (buf.getLastD default).timestamp
    let total_visits := buf.length
    let tds := top_domains_str (top_domains buf)
    [s!"Between {start_time} and {end_time}, visited {total_visits} websites, including {tds}."]

/-- Lexicographic-by-code-point `≤` on character lists, Python's string
comparison. -/
def lexLe : List Char → List Char → Bool
  | [], _ => true
  | _ :: _, [] => false
  | a :: as, b :: bs =>
    a.toNat < b.toNat || (a.toNat == b.toNat && lexLe as bs)

/-- Strict lexicographic-by-code-point `<` on character lists. -/
def lexLt : List Char → List Char → Bool
  | [], [] => false
  | [], _ :: _ => true
  | _ :: _, [] => false
  | a :: as, b :: bs =>
    a.toNat < b.toNat || (a.toNat == b.toNat && lexLt as bs)

/-- Python string `≤` (code-point lexicographic), used by the ascending
sort inside `Series.mode()`. -/
def strLe (a b : String) : Prop := lexLe a.data b.data = true

instance : DecidableRel strLe := fun a b => instDecidableEqBool (lexLe a.data b.data) true

/-- Python string `<`. -/
def strLt (a b : String) : Prop := lexLt a.data b.data = true

instance : DecidableRel strLt := fun a b => instDecidableEqBool (lexLt a.data b.data) true

/-- The maximum of the recorded counts (`0` on an empty table), i.e. the
count of the modal value(s). -/
def maxCount (c : List (String × Nat)) : Nat :=
  (c.map (fun p => p.2)).foldl max 0

/-- The values of maximal count, in first-occurrence order. -/
def modeCandidates (xs : List String) : List String :=
  ((counterList xs).filter (fun p => p.2 == maxCount (counterList xs))).map (fun p => p.1)

/-- `Series.mode()`: all maximal-count values, sorted ascending. -/
def pandasMode (xs : List String) : List String :=
  List.insertionSort strLe (modeCandidates xs)

/-- `events['pc'].mode().iloc[0]`. -/
def pandasModeStr (xs : List String) : String :=
  (pandasMode xs).headD ""

/-- Rendering of a cell that may hold NaN: pandas prints NaN as `nan`
inside an f-string. -/
def pdStr : Option String → String
  | some s => s
  | none => "nan"

/-- One iteration of the `for _, event in events.iterrows()` loop of
`create_summary_from_events`: state is `(narrative_parts, web_activity_buffer)`.
A non-http event first flushes the buffer, then appends its own sentence
(none for an unrecognized activity type); an http event is buffered. -/
def summaryStep (st : List String × List Event) (e : Event) : List String × List Event :=
  let time_str := strftimeHMS e.timestamp
  let parts := if e.activity_type ≠ "http" then st.1 ++ flush_web_buffer st.2 else st.1
  let buf := if e.activity_type ≠ "http" then [] else st.2
  if e.activity_type = "logon" then (parts ++ [s!"Logged on at {time_str}."], buf)
  else if e.activity_type = "logoff" then (parts ++ [s!"Logged off at {time_str}."], buf)
  else if e.activity_type = "device_connect" then (parts ++ [s!"Connected a USB device at {time_str}."], buf)
  else if e.activity_type = "device_disconnect" then (parts ++ [s!"Disconnected a USB device at {time_str}."], buf)
  else if e.activity_type = "http" then (parts, buf ++ [e])
  else (parts, buf)

/-- The header sentence of a bucket:
`f"User {user_id} (Role: {role}) on {pc}:"`, with user and role from the
first event and pc from `events['pc'].mode().iloc[0]` (falling back to
`'Unknown PC'` for an empty pc column, as the source's conditional does). -/
def headerOf (events : List Event) : String :=
  let pc := if (events.map (fun e => e.pc)).isEmpty then "Unknown PC"
            else pandasModeStr (events.map (fun e => e.pc))
  s!"User {pdStr (events.headD default).user_id} (Role: {(events.headD default).role}) on {pc}:"

/-- `create_summary_from_events`: empty bucket gives `""`; otherwise the
header (user and role from the first event, pc from `mode().iloc[0]`)
followed by the scan over the events and a final flush, joined by `" "`. -/
def create_summary_from_events (events : List Event) : String :=
  if events.isEmpty then ""
  else
    let first_event := events.headD default
    let pcs := events.map (fun e => e.pc)
    let pc := if pcs.isEmpty then "Unknown PC" else pandasModeStr pcs
    let header := s!"User {pdStr first_event.user_id} (Role: {first_event.role}) on {pc}:"
    let res := events.foldl summaryStep ([header], [])
    " ".intercalate (res.1 ++ flush_web_buffer res.2)

/-- Strict order on the `user_id` sort key: NaN (`none`) keys come last,
as pandas places them with the default `na_position='last'`. -/
def optUserLt : Option String → Option String → Prop
  | none, _ => False
  | some _, none => True
  | some x, some y => strLt x y

instance : DecidableRel optUserLt := fun a b =>
  match a, b with
  | none, _ => isFalse (fun h => h)
  | some _, none => isTrue trivial
  | some x, some y => inferInstanceAs (Decidable (strLt x y))

/-- `final_df.sort_values(by=['user_id', 'timestamp'])` orders rows by
`user_id` then `timestamp`; with more than one sort key pandas uses
`numpy.lexsort`, which is stable, and NaN keys are placed last. -/
def evKeyLE (a b : Event) : Prop :=
  (a.user_id = b.user_id ∧ a.timestamp ≤ b.timestamp) ∨ optUserLt a.user_id b.user_id

instance : DecidableRel evKeyLE := fun a b =>
  inferInstanceAs
    (Decidable ((a.user_id = b.user_id ∧ a.timestamp ≤ b.timestamp) ∨ optUserLt a.user_id b.user_id))

/-- The Event Merger: concatenate the three normalized source sequences,
then sort stably by `(user_id, timestamp)`. -/
def mergeEvents (l1 l2 l3 : List Event) : List Event :=
  List.insertionSort evKeyLE (l1 ++ l2 ++ l3)

/-- Role directory: `user_id → role`, deduplicated upstream by
`drop_duplicates(subset='user_id', keep='last')`. -/
def RoleMap := List (String × String)

/-- The role column produced for one row by
`pd.merge(df, user_role_map, on='user_id', how='left').fillna({'role': 'Unknown'})`:
a NaN `user_id` matches nothing, an unmatched row's NaN role is filled
with `"Unknown"`. -/
def roleFor (m : RoleMap) (uid : Option String) : String :=
  (((uid.bind (fun u => m.find? (fun p => p.1 == u)))).map (fun p => p.2)).getD "Unknown"

/-- A raw logon.csv row: `{date, user, pc, activity}`. -/
structure RawAuth where
  date : Nat
  user : String
  pc : String
  activity : String
deriving DecidableEq, Inhabited

/-- Normalization of the logon source in `generate_narratives`: derive
`user_id` by splitting the raw `user` field, left-join the role map,
classify `activity` (`"Logon"` to `logon`, anything else to `logoff`),
and keep the canonical columns. No row is dropped: this is a `map`. -/
def normalizeAuth (m : RoleMap) (recs : List RawAuth) : List Event :=
  recs.map (fun r =>
    { timestamp := r.date
      user_id := extractUserId r.user
      role := roleFor m (extractUserId r.user)
      pc := r.pc
      activity_type := if r.activity = "Logon" then "logon" else "logoff" })

/-- Instrumented copy of `summaryStep` whose extra component records, at
each flush of a non-empty buffer, the `total_visits` figure written into
the flushed sentence (the buffer length). -/
def summaryStepT (st : List String × List Event × List Nat) (e : Event) :
    List String × List Event × List Nat :=
  let time_str := strftimeHMS e.timestamp
  let parts := if e.activity_type ≠ "http" then st.1 ++ flush_web_buffer st.2.1 else st.1
  let ts := if e.activity_type ≠ "http" then
      st.2.2 ++ (if st.2.1.isEmpty then [] else [st.2.1.length]) else st.2.2
  let buf := if e.activity_type ≠ "http" then [] else st.2.1
  if e.activity_type = "logon" then (parts ++ [s!"Logged on at {time_str}."], buf, ts)
  else if e.activity_type = "logoff" then (parts ++ [s!"Logged off at {time_str}."], buf, ts)
  else if e.activity_type = "device_connect" then (parts ++ [s!"Connected a USB device at {time_str}."], buf, ts)
  else if e.activity_type = "device_disconnect" then (parts ++ [s!"Disconnected a USB device at {time_str}."], buf, ts)
  else if e.activity_type = "http" then (parts, buf ++ [e], ts)
  else (parts, buf, ts)

/-- The `total_visits` figures of all web-summary sentences emitted for a
bucket, including the final flush after the loop. -/
def flushTotals (events : List Event) : List Nat :=
  let res := events.foldl summaryStepT ([], [], [])
  res.2.2 ++ (if res.2.1.isEmpty then [] else [res.2.1.length])

/-- The count currently recorded for key `x` in a counter table
(0 when absent). -/
def cntOf (acc : List (String × Nat)) (x : String) : Nat :=
  match acc.find? (fun p => p.1 == x) with
  | some p => p.2
  | none => 0

/-- The dedup of a list keeping the first occurrence of each value: the
key order of a Python `Counter`. -/
def dedupKeepFirst (xs : List String) : List String :=
  xs.foldl (fun acc x => if x ∈ acc then acc else acc ++ [x]) []

/-- The discrete sentence a single event contributes after any flush:
one sentence for the four non-web types, nothing for `http` (which is
buffered instead) or for an unrecognized type. -/
def emitted (e : Event) : List String :=
  if e.activity_type = "logon" then [s!"Logged on at {strftimeHMS e.timestamp}."]
  else if e.activity_type = "logoff" then [s!"Logged off at {strftimeHMS e.timestamp}."]
  else if e.activity_type = "device_connect" then [s!"Connected a USB device at {strftimeHMS e.timestamp}."]
  else if e.activity_type = "device_disconnect" then [s!"Disconnected a USB device at {strftimeHMS e.timestamp}."]
  else []

/-- From the spec's words, for comparison with the source: user_id
extraction "fails with a `MalformedUserFieldError` if the field does not
contain a separator" — an error channel the source does not have. -/
def extractUserId_specModel (user : String) : Except String String :=
  match (pySplitSlash user)[1]? with
  | some u => Except.ok u
  | none => Except.error "MalformedUserFieldError"

/-- From the spec's words, for comparison with the source: the header pc
tie-break the spec prescribes, "the first value reaching the maximum
count in bucket order". -/
def specFirstMaxPC (xs : List String) : String :=
  (modeCandidates xs).headD ""

/-- The properties C2 (as amended) asserts of the header pc: it attains
the maximal count, it is the code-point-lexicographically smallest among
the maximal-count candidates, `maxCount` bounds every recorded count, and
the narrative begins with the header built from it. -/
def HeaderPCSpec (events : List Event) : Prop :=
  pandasModeStr (events.map (fun e => e.pc)) ∈ modeCandidates (events.map (fun e => e.pc))
  ∧ (∀ d ∈ modeCandidates (events.map (fun e => e.pc)),
      strLe (pandasModeStr (events.map (fun e => e.pc))) d)
  ∧ (∀ q ∈ counterList (events.map (fun e => e.pc)),
      q.2 ≤ maxCount (counterList (events.map (fun e => e.pc))))
  ∧ ∃ t, create_summary_from_events events = headerOf events ++ t

/-- The properties C4 asserts of a flush: the emitted sentence, the
selected list pairwise sorted by count descending, counts correct and
drawn from the counter table, exactly `min 3 (distinct domains)` entries,
counter keys in first-occurrence order, unselected entries bounded by
every selected count, and equal-count selected pairs keeping their
counter-table (first-occurrence) order. -/
def TopDomainsSpec (buf : List Event) : Prop :=
  flush_web_buffer buf =
      [s!"Between {strftimeHMS (buf.headD default).timestamp} and {strftimeHMS (buf.getLastD default).timestamp}, visited {buf.length} websites, including {top_domains_str (top_domains buf)}."]
  ∧ (top_domains buf).Pairwise cntGE
  ∧ (∀ q ∈ top_domains buf, q ∈ domain_counts buf
      ∧ q.2 = (buf.map (fun e => domainOf e.url)).count q.1)
  ∧ (top_domains buf).length = min 3 (domain_counts buf).length
  ∧ (domain_counts buf).map (fun q => q.1) = dedupKeepFirst (buf.map (fun e => domainOf e.url))
  ∧ (∀ q ∈ domain_counts buf, q ∉ top_domains buf → ∀ p ∈ top_domains buf, q.2 ≤ p.2)
  ∧ (∀ i j (hi : i < (top_domains buf).length) (hj : j < (top_domains buf).length),
      i < j → ((top_domains buf).get ⟨i, hi⟩).2 = ((top_domains buf).get ⟨j, hj⟩).2 →
      [(top_domains buf).get ⟨i, hi⟩, (top_domains buf).get ⟨j, hj⟩] <+ domain_counts buf)

/-- The properties C8 asserts of role enrichment: the left join drops no
row, a row whose `user_id` matches nothing in the RoleMap gets role
`"Unknown"`, and the narrative header of a bucket led by such a user
shows `(Role: Unknown)`. -/
def RoleEnrichSpec (m : RoleMap) (recs : List RawAuth) (events : List Event) : Prop :=
  (normalizeAuth m recs).length = recs.length
  ∧ (∀ e ∈ normalizeAuth m recs,
      (∀ u, e.user_id = some u → m.find? (fun p => p.1 == u) = none) → e.role = "Unknown")
  ∧ ∃ t, create_summary_from_events events
      = "User " ++ pdStr (events.headD default).user_id ++ " (Role: Unknown)" ++ t

/-- The interleaving bucket of the spec's testable property:
`[logon@08:00, http@08:01, http@08:02, logoff@08:10]`. -/
def c5Bucket : List Event :=
  [{ timestamp := 28800, user_id := some "u123", role := "ITAdmin", pc := "PC-01",
     activity_type := "logon" },
   { timestamp := 28860, user_id := some "u123", role := "ITAdmin", pc := "PC-01",
     activity_type := "http", url := "http://site.com/a" },
   { timestamp := 28920, user_id := some "u123", role := "ITAdmin", pc := "PC-01",
     activity_type := "http", url := "http://site.com/b" },
   { timestamp := 29400, user_id := some "u123", role := "ITAdmin", pc := "PC-01",
     activity_type := "logoff" }]

/-- The buffered web events of the spec's flush example: timestamps
09:00:00, 09:05:00, 09:10:00, visiting example.com twice and test.org
once. -/
def c7Buf : List Event :=
  [{ timestamp := 32400, user_id := some "u1", role := "R", pc := "PC-01",
     activity_type := "http", url := "http://example.com/page1" },
   { timestamp := 32700, user_id := some "u1", role := "R", pc := "PC-01",
     activity_type := "http", url := "http://test.org/" },
   { timestamp := 33000, user_id := some "u1", role := "R", pc := "PC-01",
     activity_type := "http", url := "http://example.com/page2" }]

/-! ### Order lemmas for the embedded comparisons -/

theorem lexLe_total : ∀ (a b : List Char), lexLe a b = true ∨ lexLe b a = true
  | [], _ => Or.inl rfl
  | _ :: _, [] => Or.inr rfl
  | a :: as, b :: bs => by
    simp only [lexLe, Bool.or_eq_true, Bool.and_eq_true, decide_eq_true_eq, beq_iff_eq]
    rcases Nat.lt_trichotomy a.toNat b.toNat with h | h | h
    · exact Or.inl (Or.inl h)
    · rcases lexLe_total as bs with ih | ih
      · exact Or.inl (Or.inr ⟨h, ih⟩)
      · exact Or.inr (Or.inr ⟨h.symm, ih⟩)
    · exact Or.inr (Or.inl h)

theorem lexLe_trans : ∀ (a b c : List Char),
    lexLe a b = true → lexLe b c = true → lexLe a c = true
  | [], _, _ => fun _ _ => rfl
  | _ :: _, [], _ => fun h _ => by simp [lexLe] at h
  | _ :: _, _ :: _, [] => fun _ h => by simp [lexLe] at h
  | a :: as, b :: bs, c :: cs => fun h1 h2 => by
    simp only [lexLe, Bool.or_eq_true, Bool.and_eq_true, decide_eq_true_eq,
      beq_iff_eq] at h1 h2 ⊢
    rcases h1 with h1 | ⟨e1, r1⟩
    · rcases h2 with h2 | ⟨e2, r2⟩
      · exact Or.inl (Nat.lt_trans h1 h2)
      · exact Or.inl (by omega)
    · rcases h2 with h2 | ⟨e2, r2⟩
      · exact Or.inl (by omega)
      · exact Or.inr ⟨by omega, lexLe_trans as bs cs r1 r2⟩

instance : IsTotal String strLe := ⟨fun a b => lexLe_total a.data b.data⟩

instance : IsTrans String strLe := ⟨fun a b c => lexLe_trans a.data b.data c.data⟩

theorem strLe_refl (a : String) : strLe a a :=
  (lexLe_total a.data a.data).elim id id

/-! ### Stability of the embedded stable sort

A stable sort leaves every class of mutually `r`-related elements in its
input order; this is the filter form used for both the Event Merger and
the `most_common` tie-break below. -/

theorem filter_insertionSort_eq {α : Type} (r : α → α → Prop) [DecidableRel r] (p : α → Bool)
    (hp : ∀ a b, p a = true → p b = true → r a b) (l : List α) :
    (List.insertionSort r l).filter p = l.filter p := by
  have hpw : (l.filter p).Pairwise r := by
    apply List.pairwise_of_forall_mem_list
    intro a ha b hb
    exact hp a b (List.of_mem_filter ha) (List.of_mem_filter hb)
  have h1 : l.filter p <+ List.insertionSort r l :=
    List.sublist_insertionSort hpw (List.filter_sublist l)
  have h2 : (l.filter p).filter p = l.filter p :=
    List.filter_eq_self.mpr (fun a ha => List.of_mem_filter ha)
  have h3 : l.filter p <+ (List.insertionSort r l).filter p := h2 ▸ h1.filter p
  have h4 : (List.insertionSort r l).filter p ~ l.filter p :=
    List.Perm.filter p (List.perm_insertionSort r l)
  exact (h3.eq_of_length h4.length_eq.symm).symm

/-- A pair of positions of a list, in order, forms a sublist. -/
theorem pair_get_sublist {α : Type} :
    ∀ (l : List α) (i j : Nat) (hi : i < l.length) (hj : j < l.length), i < j →
      [l.get ⟨i, hi⟩, l.get ⟨j, hj⟩] <+ l
  | a :: t, 0, j + 1, _, hj, _ => by
    have hm : t.get ⟨j, Nat.lt_of_succ_lt_succ hj⟩ ∈ t :=
      List.get_mem t j (Nat.lt_of_succ_lt_succ hj)
    exact (List.singleton_sublist.mpr hm).cons₂ a
  | a :: t, i + 1, j + 1, hi, hj, hij => by
    have h := pair_get_sublist t i j (Nat.lt_of_succ_lt_succ hi) (Nat.lt_of_succ_lt_succ hj)
      (Nat.lt_of_succ_lt_succ hij)
    exact h.cons a

/-! ### Python split lemmas -/

theorem split2_ne_nil (c d : Char) : ∀ xs : List Char, split2 c d xs ≠ []
  | [] => by simp [split2]
  | [x] => by simp [split2]
  | x :: y :: xs => by
    by_cases hm : x = c ∧ y = d
    · simp [split2, hm]
    · have h := split2_ne_nil c d (y :: xs)
      rcases he : split2 c d (y :: xs) with _ | ⟨t, ts⟩
      · exact absurd he h
      · simp [split2, hm, he]

theorem split2_length_one (c d : Char) :
    ∀ xs : List Char, (split2 c d xs).length = 1 → split2 c d xs = [xs]
  | [] => fun _ => rfl
  | [_] => fun _ => rfl
  | x :: y :: xs => fun h => by
    by_cases hm : x = c ∧ y = d
    · exfalso
      rw [show split2 c d (x :: y :: xs) = [] :: split2 c d xs by simp [split2, hm]] at h
      simp only [List.length_cons] at h
      exact split2_ne_nil c d xs (List.length_eq_zero.mp (by omega))
    · rcases he : split2 c d (y :: xs) with _ | ⟨t, ts⟩
      · exact absurd he (split2_ne_nil c d (y :: xs))
      · have hx : split2 c d (x :: y :: xs) = (x :: t) :: ts := by simp [split2, hm, he]
        rw [hx] at h ⊢
        have hts : ts = [] := by
          simp only [List.length_cons] at h
          exact List.length_eq_zero.mp (by omega)
        subst hts
        have hlen : (split2 c d (y :: xs)).length = 1 := by simp [he]
        have h2 := split2_length_one c d (y :: xs) hlen
        rw [he] at h2
        simp only [List.cons.injEq, and_true] at h2
        simp [h2]

/-! ### Counter lemmas -/

theorem bump_ne_nil (acc : List (String × Nat)) (k : String) : bump acc k ≠ [] := by
  cases acc with
  | nil => simp [bump]
  | cons p t => by_cases h : p.1 = k <;> simp [bump, h]

theorem foldl_bump_ne_nil :
    ∀ (t : List String) (acc : List (String × Nat)), acc ≠ [] → t.foldl bump acc ≠ []
  | [], _ => fun h => h
  | x :: t, acc => fun _ => foldl_bump_ne_nil t (bump acc x) (bump_ne_nil acc x)

theorem counterList_ne_nil (xs : List String) (h : xs ≠ []) : counterList xs ≠ [] := by
  rcases xs with _ | ⟨x, t⟩
  · exact absurd rfl h
  · exact foldl_bump_ne_nil t (bump [] x) (bump_ne_nil [] x)

theorem keys_bump (acc : List (String × Nat)) (k : String) :
    (bump acc k).map (fun p => p.1) =
      if k ∈ acc.map (fun p => p.1) then acc.map (fun p => p.1)
      else acc.map (fun p => p.1) ++ [k] := by
  induction acc with
  | nil => simp [bump]
  | cons p t ih =>
    by_cases h : p.1 = k
    · simp [bump, h]
    · simp only [bump, if_neg h, List.map_cons, ih]
      by_cases hm : k ∈ t.map (fun p => p.1)
      · simp [hm, Ne.symm h]
      · simp [hm, Ne.symm h]

theorem mem_bump (acc : List (String × Nat)) (k : String)
    (hN : (acc.map (fun p => p.1)).Nodup) (q : String × Nat) :
    q ∈ bump acc k ↔ (q ∈ acc ∧ q.1 ≠ k) ∨ (q.1 = k ∧ q.2 = cntOf acc k + 1) := by
  induction acc with
  | nil =>
    simp only [bump, cntOf, List.find?_nil, List.mem_singleton, List.not_mem_nil,
      false_and, false_or, Prod.ext_iff]
  | cons p t ih =>
    obtain ⟨hp, hN'⟩ := List.nodup_cons.mp hN
    by_cases h : p.1 = k
    · have hc : cntOf (p :: t) k = p.2 := by
        simp [cntOf, List.find?_cons_of_pos, h]
      have hb : bump (p :: t) k = (p.1, p.2 + 1) :: t := by simp [bump, h]
      rw [hb, hc]
      constructor
      · rintro hq
        rcases List.mem_cons.mp hq with rfl | hqt
        · exact Or.inr ⟨h, rfl⟩
        · refine Or.inl ⟨List.mem_cons_of_mem _ hqt, ?_⟩
          intro hqk
          apply hp
          have hmapmem : q.1 ∈ t.map (fun p => p.1) := List.mem_map_of_mem _ hqt
          rwa [hqk, ← h] at hmapmem
      · rintro (⟨hmem, hne⟩ | ⟨hk, hcv⟩)
        · rcases List.mem_cons.mp hmem with rfl | hqt
          · exact absurd h hne
          · exact List.mem_cons_of_mem _ hqt
        · have : q = (p.1, p.2 + 1) := Prod.ext (by rw [hk, h]) hcv
          exact this ▸ List.mem_cons_self _ _
    · have hc : cntOf (p :: t) k = cntOf t k := by
        simp [cntOf, List.find?_cons_of_neg, h]
      have hb : bump (p :: t) k = p :: bump t k := by simp [bump, h]
      rw [hb, hc]
      constructor
      · rintro hq
        rcases List.mem_cons.mp hq with rfl | hqt
        · exact Or.inl ⟨List.mem_cons_self _ _, h⟩
        · rcases (ih hN').mp hqt with ⟨hmem, hne⟩ | hk
          · exact Or.inl ⟨List.mem_cons_of_mem _ hmem, hne⟩
          · exact Or.inr hk
      · rintro (⟨hmem, hne⟩ | hk)
        · rcases List.mem_cons.mp hmem with rfl | hqt
          · exact List.mem_cons_self _ _
          · exact List.mem_cons_of_mem _ ((ih hN').mpr (Or.inl ⟨hqt, hne⟩))
        · exact List.mem_cons_of_mem _ ((ih hN').mpr (Or.inr hk))

theorem counterList_append_singleton (xs : List String) (x : String) :
    counterList (xs ++ [x]) = bump (counterList xs) x := by
  simp [counterList, List.foldl_append]

theorem counterList_inv (xs : List String) :
    ((counterList xs).map (fun p => p.1)).Nodup
    ∧ (∀ d, d ∈ (counterList xs).map (fun p => p.1) ↔ d ∈ xs)
    ∧ (∀ q ∈ counterList xs, q.2 = xs.count q.1) := by
  induction xs using List.reverseRecOn with
  | nil => simp [counterList]
  | append_singleton xs x ih =>
    obtain ⟨hN, hmem, hcnt⟩ := ih
    have hstep := counterList_append_singleton xs x
    have hco : cntOf (counterList xs) x = xs.count x := by
      rcases hfind : (counterList xs).find? (fun p => p.1 == x) with _ | p0
      · have hx : x ∉ xs := by
          intro hx
          rcases List.mem_map.mp ((hmem x).mpr hx) with ⟨q, hq, hq1⟩
          have := List.find?_eq_none.mp hfind q hq
          simp [hq1] at this
        simp [cntOf, hfind, List.count_eq_zero.mpr hx]
      · have hpmem := List.mem_of_find?_eq_some hfind
        have hp1 : p0.1 = x := by simpa using List.find?_some hfind
        simp [cntOf, hfind, hcnt p0 hpmem, hp1]
    refine ⟨?_, ?_, ?_⟩
    · rw [hstep, keys_bump]
      by_cases hmx : x ∈ (counterList xs).map (fun p => p.1)
      · simpa [hmx] using hN
      · simp only [if_neg hmx]
        simp [List.nodup_append, hN, hmx]
    · intro d
      rw [hstep, keys_bump]
      by_cases hmx : x ∈ (counterList xs).map (fun p => p.1)
      · simp only [if_pos hmx, hmem d, List.mem_append, List.mem_singleton]
        constructor
        · exact fun h => Or.inl h
        · rintro (h | rfl)
          · exact h
          · exact (hmem d).mp hmx
      · simp [if_neg hmx, List.mem_append, hmem d]
    · intro q hq
      rw [hstep] at hq
      rcases (mem_bump _ _ hN q).mp hq with ⟨hqt, hne⟩ | ⟨hk, hcv⟩
      · rw [hcnt q hqt, List.count_append]
        have hz : [x].count q.1 = 0 := by
          simp [List.count_cons, Ne.symm hne]
        rw [hz]
        omega
      · rw [hcv, hco, hk, List.count_append]
        simp [List.count_cons]

theorem counterList_keys_dedup (xs : List String) :
    (counterList xs).map (fun p => p.1) = dedupKeepFirst xs := by
  induction xs using List.reverseRecOn with
  | nil => simp [counterList, dedupKeepFirst]
  | append_singleton xs x ih =>
    have hstep2 :
        dedupKeepFirst (xs ++ [x]) =
          if x ∈ dedupKeepFirst xs then dedupKeepFirst xs else dedupKeepFirst xs ++ [x] := by
      simp [dedupKeepFirst, List.foldl_append]
    rw [counterList_append_singleton, keys_bump, ih, hstep2]

/-! ### Fold-max lemmas for `maxCount` -/

theorem foldl_max_choice : ∀ (l : List Nat) (a : Nat), l.foldl max a = a ∨ l.foldl max a ∈ l
  | [], _ => Or.inl rfl
  | x :: t, a => by
    rcases foldl_max_choice t (max a x) with h | h
    · rcases max_choice a x with hm | hm
      · exact Or.inl (by rw [List.foldl_cons, h, hm])
      · exact Or.inr (by rw [List.foldl_cons, h, hm]; exact List.mem_cons_self _ _)
    · exact Or.inr (List.mem_cons_of_mem _ h)

theorem le_foldl_max : ∀ (l : List Nat) (a : Nat), a ≤ l.foldl max a
  | [], _ => Nat.le_refl _
  | x :: t, a => Nat.le_trans (Nat.le_max_left a x) (le_foldl_max t (max a x))

theorem mem_le_foldl_max : ∀ (l : List Nat) (a x : Nat), x ∈ l → x ≤ l.foldl max a
  | [], _, _, h => absurd h (List.not_mem_nil _)
  | y :: t, a, x, h => by
    rcases List.mem_cons.mp h with rfl | h
    · exact Nat.le_trans (Nat.le_max_right a x) (le_foldl_max t (max a x))
    · exact mem_le_foldl_max t (max a y) x h

theorem le_maxCount (c : List (String × Nat)) (q : String × Nat) (hq : q ∈ c) :
    q.2 ≤ maxCount c :=
  mem_le_foldl_max _ 0 q.2 (List.mem_map_of_mem _ hq)

theorem maxCount_attained (c : List (String × Nat)) (h : c ≠ []) :
    ∃ q ∈ c, q.2 = maxCount c := by
  rcases foldl_max_choice (c.map (fun p => p.2)) 0 with hm | hm
  · rcases List.exists_cons_of_ne_nil h with ⟨p, t, rfl⟩
    refine ⟨p, List.mem_cons_self _ _, ?_⟩
    have h1 : p.2 ≤ maxCount (p :: t) := le_maxCount _ p (List.mem_cons_self _ _)
    have h2 : maxCount (p :: t) = 0 := hm
    omega
  · rcases List.mem_map.mp hm with ⟨q, hq, hq2⟩
    exact ⟨q, hq, hq2⟩

/-! ### Narrative header lemmas -/

theorem intercalate_go_exists (s : String) :
    ∀ (l : List String) (acc : String), ∃ t, String.intercalate.go acc s l = acc ++ t
  | [], acc => ⟨"", by simp [String.intercalate.go]⟩
  | a :: as, acc => by
    rcases intercalate_go_exists s as (acc ++ s ++ a) with ⟨t, ht⟩
    refine ⟨s ++ a ++ t, ?_⟩
    show String.intercalate.go (acc ++ s ++ a) s as = acc ++ (s ++ a ++ t)
    rw [ht]
    simp [String.append_assoc]

theorem intercalate_cons_exists (s a : String) (l : List String) :
    ∃ t, String.intercalate s (a :: l) = a ++ t := by
  rcases intercalate_go_exists s l a with ⟨t, ht⟩
  exact ⟨t, by rw [String.intercalate, ht]⟩

theorem summaryStep_fst (parts : List String) (buf : List Event) (e : Event) :
    (summaryStep (parts, buf) e).1 = parts ++ (summaryStep ([], buf) e).1 := by
  simp only [summaryStep]
  split_ifs <;> simp

theorem foldl_parts_extend :
    ∀ (events : List Event) (parts : List String) (buf : List Event),
      ∃ ext, (events.foldl summaryStep (parts, buf)).1 = parts ++ ext
  | [], parts, buf => ⟨[], by simp⟩
  | e :: es, parts, buf => by
    rcases foldl_parts_extend es (summaryStep (parts, buf) e).1 (summaryStep (parts, buf) e).2
      with ⟨ext, hext⟩
    refine ⟨(summaryStep ([], buf) e).1 ++ ext, ?_⟩
    rw [List.foldl_cons]
    calc (es.foldl summaryStep (summaryStep (parts, buf) e)).1
        = (summaryStep (parts, buf) e).1 ++ ext := hext
      _ = parts ++ ((summaryStep ([], buf) e).1 ++ ext) := by
          rw [summaryStep_fst, List.append_assoc]

theorem create_summary_eq (events : List Event) (h : events ≠ []) :
    create_summary_from_events events =
      " ".intercalate ((events.foldl summaryStep ([headerOf events], [])).1
        ++ flush_web_buffer (events.foldl summaryStep ([headerOf events], [])).2) := by
  unfold create_summary_from_events
  rw [if_neg (by simpa using h)]
  rfl

theorem create_summary_head (events : List Event) (h : events ≠ []) :
    ∃ t, create_summary_from_events events = headerOf events ++ t := by
  rw [create_summary_eq events h]
  rcases foldl_parts_extend events [headerOf events] [] with ⟨ext, hext⟩
  rw [hext, List.singleton_append, List.cons_append]
  exact intercalate_cons_exists _ _ _

/-! ### The two-state reduction: flush-then-emit shape and accounting -/

theorem summaryStep_non_http (parts : List String) (buf : List Event) (e : Event)
    (h : e.activity_type ≠ "http") :
    summaryStep (parts, buf) e = (parts ++ flush_web_buffer buf ++ emitted e, []) := by
  simp only [summaryStep, emitted, if_pos h]
  split_ifs <;> first
    | exact absurd (by assumption) h
    | simp [List.append_assoc]

theorem stepT_proj (st : List String × List Event × List Nat) (e : Event) :
    summaryStep (st.1, st.2.1) e = ((summaryStepT st e).1, (summaryStepT st e).2.1) := by
  simp only [summaryStep, summaryStepT]
  split_ifs <;> rfl

theorem stepT_totals (st : List String × List Event × List Nat) (e : Event) :
    ((summaryStepT st e).2.2).sum + (summaryStepT st e).2.1.length
      = st.2.2.sum + st.2.1.length + (if e.activity_type = "http" then 1 else 0) := by
  simp only [summaryStepT]
  by_cases hh : e.activity_type = "http"
  · simp [hh]; omega
  · by_cases hb : st.2.1.isEmpty
    · have hb' : st.2.1 = [] := by simpa [List.isEmpty_iff] using hb
      split_ifs <;> simp [hb']
    · split_ifs <;> simp [hb, List.sum_append]

theorem foldT_proj :
    ∀ (events : List Event) (parts : List String) (buf : List Event) (ts : List Nat),
      events.foldl summaryStep (parts, buf)
        = ((events.foldl summaryStepT (parts, buf, ts)).1,
           (events.foldl summaryStepT (parts, buf, ts)).2.1)
  | [], _, _, _ => rfl
  | e :: es, parts, buf, ts => by
    rw [List.foldl_cons, List.foldl_cons, stepT_proj (parts, buf, ts) e]
    exact foldT_proj es (summaryStepT (parts, buf, ts) e).1
      (summaryStepT (parts, buf, ts) e).2.1 (summaryStepT (parts, buf, ts) e).2.2

theorem foldT_sum :
    ∀ (events : List Event) (parts : List String) (buf : List Event) (ts : List Nat),
      ((events.foldl summaryStepT (parts, buf, ts)).2.2).sum
        + (events.foldl summaryStepT (parts, buf, ts)).2.1.length
      = ts.sum + buf.length + (events.filter (fun e => e.activity_type == "http")).length
  | [], _, _, _ => by simp
  | e :: es, parts, buf, ts => by
    rw [List.foldl_cons, List.filter_cons]
    have h1 :
        ((es.foldl summaryStepT (summaryStepT (parts, buf, ts) e)).2.2).sum
          + (es.foldl summaryStepT (summaryStepT (parts, buf, ts) e)).2.1.length
        = (summaryStepT (parts, buf, ts) e).2.2.sum
          + (summaryStepT (parts, buf, ts) e).2.1.length
          + (es.filter (fun e => e.activity_type == "http")).length :=
      foldT_sum es (summaryStepT (parts, buf, ts) e).1
        (summaryStepT (parts, buf, ts) e).2.1 (summaryStepT (parts, buf, ts) e).2.2
    have h2 := stepT_totals (parts, buf, ts) e
    by_cases hh : e.activity_type = "http"
    · simp only [hh, if_pos] at h2
      simp only [show (e.activity_type == "http") = true by simp [hh], if_pos,
        List.length_cons]
      omega
    · simp only [if_neg hh] at h2
      simp only [show (e.activity_type == "http") = false by simp [hh]]
      simp only [Bool.false_eq_true, if_false]
      omega

/-! ### Claim theorems -/

set_option maxRecDepth 8000

/-- C1: Merge stability. For every `(user_id, timestamp)` key — including
the NaN key — the subsequence of key-carrying events in the stream
produced by the Event Merger (concatenation of the three normalized
source sequences followed by a stable sort keyed by `user_id` then
`timestamp`) equals the subsequence in the pre-merge concatenation, i.e.
events with equal keys keep their relative input order. -/
theorem merge_stable (l1 l2 l3 : List Event) (u : Option String) (t : Nat) :
    (mergeEvents l1 l2 l3).filter (fun e => e.user_id == u && e.timestamp == t)
      = (l1 ++ l2 ++ l3).filter (fun e => e.user_id == u && e.timestamp == t) := by
  apply filter_insertionSort_eq
  intro a b ha hb
  simp only [Bool.and_eq_true, beq_iff_eq] at ha hb
  exact Or.inl ⟨ha.1.trans hb.1.symm, by omega⟩

/-- C3 (counterexample): for the raw user field `"nodomain"`, which has
no `/` separator, the source's extraction `.str.split('/').str[1]`
produces a missing value (NaN, embedded as `none`) — the record is given
an empty identity, and no `MalformedUserFieldError` (which the spec
prescribes, modelled by `extractUserId_specModel`) exists anywhere in the
source or is raised. -/
theorem user_field_no_error_counterexample :
    extractUserId "nodomain" = none
    ∧ extractUserId_specModel "nodomain" = Except.error "MalformedUserFieldError" :=
  ⟨rfl, rfl⟩

/-- C3 (amended): a raw user field without the `/` separator yields a
missing (`none`/NaN) `user_id`; no error is raised and the record
proceeds with a null identity (which the later `groupby` on `user_id`
silently drops). -/
theorem user_field_missing_separator_yields_none (user : String)
    (h : (splitCh '/' user.data).length = 1) :
    extractUserId user = none := by
  unfold extractUserId pySplitSlash
  apply List.getElem?_eq_none
  simp [h]

theorem user_field_missing_separator_yields_none_witness :
    ((splitCh '/' "nodomain".data).length = 1) ∧ extractUserId "nodomain" = none :=
  ⟨by decide, user_field_missing_separator_yields_none "nodomain" (by decide)⟩

/-- C6: Determinism of the Summarizer — the narrative is a pure function
of the ordered event bucket: two invocations on equal buckets produce
identical narrative strings. -/
theorem summarizer_deterministic (ev1 ev2 : List Event) (h : ev1 = ev2) :
    create_summary_from_events ev1 = create_summary_from_events ev2 := by
  rw [h]

theorem summarizer_deterministic_witness :
    c5Bucket = c5Bucket
    ∧ create_summary_from_events c5Bucket = create_summary_from_events c5Bucket :=
  ⟨rfl, summarizer_deterministic c5Bucket c5Bucket rfl⟩

/-- C7: concrete flush sentence format — for the buffer with timestamps
09:00:00, 09:05:00, 09:10:00 visiting example.com twice and test.org
once, the flushed sentence is exactly the quoted string: start and end
are the first and last buffered timestamps formatted HH:MM:SS, the total
is the buffer length, and each count uses the invariant suffix
`"times"`. -/
theorem flush_sentence_concrete :
    flush_web_buffer c7Buf =
      ["Between 09:00:00 and 09:10:00, visited 3 websites, including example.com (2 times), test.org (1 times)."] := by
  decide

/-- C9: domain extraction is total and has the documented fallback — it
is a total function of the url, and on a url with no `"//"` occurrence
(equivalently, whose split on `"//"` is a single piece, so that the
`[-1]` indexing selects the whole url) the extracted domain is the
portion of the whole url before its first `/`. -/
theorem domain_extraction_fallback (url : String)
    (h : (split2 '/' '/' url.data).length = 1) :
    domainOf url = String.mk ((splitCh '/' url.data).headD []) := by
  unfold domainOf
  rw [split2_length_one '/' '/' url.data h]
  rfl

theorem domain_extraction_fallback_witness :
    ((split2 '/' '/' "nodomain.com/path".data).length = 1)
    ∧ domainOf "nodomain.com/path" = String.mk ((splitCh '/' "nodomain.com/path".data).headD []) :=
  ⟨by decide, domain_extraction_fallback "nodomain.com/path" (by decide)⟩

/-- C10: buffer accounting — over any bucket, the instrumented scan
(which records, at each flush, the `total_visits` figure of the flushed
sentence) agrees with the source's scan on parts and buffer, and the
recorded totals (including the final flush) sum to exactly the number of
http events in the bucket: every http event is buffered once and counted
in exactly one web-summary sentence. -/
theorem web_buffer_accounting (events : List Event) :
    (flushTotals events).sum
        = (events.filter (fun e => e.activity_type == "http")).length
    ∧ ∀ (parts : List String) (buf : List Event),
        events.foldl summaryStep (parts, buf)
          = ((events.foldl summaryStepT (parts, buf, [])).1,
             (events.foldl summaryStepT (parts, buf, [])).2.1) := by
  constructor
  · have h := foldT_sum events [] [] []
    simp only [flushTotals, List.sum_append]
    by_cases hb : (events.foldl summaryStepT ([], [], [])).2.1.isEmpty
    · have hb' : (events.foldl summaryStepT ([], [], [])).2.1 = [] := by
        simpa using hb
      rw [if_pos hb]
      rw [hb'] at h
      simp only [List.length_nil, List.sum_nil] at h ⊢
      omega
    · rw [if_neg hb]
      simp only [List.sum_cons, List.sum_nil, List.length_nil] at h ⊢
      omega
  · intro parts buf
    exact foldT_proj events parts buf []

/-- C2 (counterexample): the claim's tie-break is wrong for the code.
In a bucket whose pc column is `["PC-B", "PC-A"]` both values tie at
count 1; the first value reaching the maximum count in bucket order is
`"PC-B"` (the spec's prescription, `specFirstMaxPC`), but
`events['pc'].mode()` returns the modes sorted ascending, so `.iloc[0]`
picks `"PC-A"`, and the narrative header reads `on PC-A:`. -/
theorem header_pc_tiebreak_counterexample :
    pandasModeStr ["PC-B", "PC-A"] = "PC-A"
    ∧ specFirstMaxPC ["PC-B", "PC-A"] = "PC-B"
    ∧ pandasModeStr ["PC-B", "PC-A"] ≠ specFirstMaxPC ["PC-B", "PC-A"]
    ∧ create_summary_from_events
        [{ timestamp := 0, user_id := some "u1", role := "R1", pc := "PC-B",
           activity_type := "logon" },
         { timestamp := 1, user_id := some "u1", role := "R1", pc := "PC-A",
           activity_type := "logon" }]
      = "User u1 (Role: R1) on PC-A: Logged on at 00:00:00. Logged on at 00:00:01." := by
  decide

/-- C2 (amended): for every non-empty bucket, the pc in the header
sentence is a most frequent value of the pc column, and when several
values tie for the maximum count the one chosen is the lexicographically
smallest (by code point) among them — `mode()` returns the maximal-count
values sorted ascending and `.iloc[0]` takes the first. -/
theorem header_pc_lex_min (events : List Event) (h : events ≠ []) : HeaderPCSpec events := by
  have hpcs : events.map (fun e => e.pc) ≠ [] := by
    rcases List.exists_cons_of_ne_nil h with ⟨e0, es, rfl⟩
    simp
  have hcl : counterList (events.map (fun e => e.pc)) ≠ [] :=
    counterList_ne_nil _ hpcs
  obtain ⟨q, hq, hqmax⟩ := maxCount_attained _ hcl
  have hcand : q.1 ∈ modeCandidates (events.map (fun e => e.pc)) :=
    List.mem_map_of_mem _ (List.mem_filter.mpr ⟨hq, by simp [hqmax]⟩)
  have hpm_ne : List.insertionSort strLe (modeCandidates (events.map (fun e => e.pc))) ≠ [] := by
    intro hcon
    have hlen := List.length_insertionSort strLe (modeCandidates (events.map (fun e => e.pc)))
    rw [hcon] at hlen
    exact List.ne_nil_of_mem hcand (List.length_eq_zero.mp hlen.symm)
  obtain ⟨m, rest, hm⟩ := List.exists_cons_of_ne_nil hpm_ne
  have hstr : pandasModeStr (events.map (fun e => e.pc)) = m := by
    show (List.insertionSort strLe (modeCandidates (events.map (fun e => e.pc)))).headD "" = m
    rw [hm]
    rfl
  have hsorted := List.sorted_insertionSort strLe (modeCandidates (events.map (fun e => e.pc)))
  rw [hm] at hsorted
  refine ⟨?_, ?_, ?_, create_summary_head events h⟩
  · rw [hstr]
    have hmm : m ∈ List.insertionSort strLe (modeCandidates (events.map (fun e => e.pc))) := by
      rw [hm]
      exact List.mem_cons_self m rest
    exact (List.mem_insertionSort strLe).mp hmm
  · intro d hd
    rw [hstr]
    have hd2 : d ∈ m :: rest := by
      rw [← hm]
      exact (List.mem_insertionSort strLe).mpr hd
    rcases List.mem_cons.mp hd2 with rfl | hd3
    · exact strLe_refl d
    · exact List.rel_of_sorted_cons hsorted d hd3
  · intro p hp
    exact le_maxCount _ p hp

theorem header_pc_lex_min_witness :
    (c5Bucket ≠ []) ∧ HeaderPCSpec c5Bucket :=
  ⟨by decide, header_pc_lex_min c5Bucket (by decide)⟩

/-- C4: web-buffer flush domain selection — for every non-empty buffer,
the flushed sentence reports `most_common(3)` of the domain counts, and
this selection lists at most three entries sorted by count descending,
with correct counts, covering `min 3 (distinct domains)` entries, every
unselected domain's count bounded by every selected one, and ties among
equal counts kept in first-occurrence order of the domain in the
buffer. -/
theorem top_domains_selection (buf : List Event) (h : buf ≠ []) : TopDomainsSpec buf := by
  have hTD : top_domains buf
      = (List.insertionSort cntGE (domain_counts buf)).take 3 := rfl
  obtain ⟨hN, hmemiff, hcnt⟩ := counterList_inv (buf.map (fun e => domainOf e.url))
  refine ⟨?_, ?_, ?_, ?_, ?_, ?_, ?_⟩
  · unfold flush_web_buffer
    rw [if_neg (by simpa using h)]
  · rw [hTD]
    exact List.Pairwise.sublist (List.take_sublist 3 _)
      (List.sorted_insertionSort cntGE (domain_counts buf))
  · intro q hq
    have hq1 : q ∈ List.insertionSort cntGE (domain_counts buf) :=
      (List.take_sublist 3 _).subset (hTD ▸ hq)
    have hq2 : q ∈ domain_counts buf := (List.mem_insertionSort cntGE).mp hq1
    exact ⟨hq2, hcnt q hq2⟩
  · rw [hTD, List.length_take, List.length_insertionSort]
  · exact counterList_keys_dedup _
  · intro q hq hqn p hp
    have hq1 : q ∈ List.insertionSort cntGE (domain_counts buf) := (List.mem_insertionSort cntGE).mpr hq
    have hsplit := List.take_append_drop 3 (List.insertionSort cntGE (domain_counts buf))
    have hq2 : q ∈ (List.insertionSort cntGE (domain_counts buf)).drop 3 := by
      rcases List.mem_append.mp (by rw [hsplit]; exact hq1) with h1 | h2
      · exact absurd h1 (hTD ▸ hqn)
      · exact h2
    have hp1 : p ∈ (List.insertionSort cntGE (domain_counts buf)).take 3 := hTD ▸ hp
    exact List.Sorted.rel_of_mem_take_of_mem_drop
      (List.sorted_insertionSort cntGE (domain_counts buf)) hp1 hq2
  · intro i j hi hj hij heq
    have hsub1 := pair_get_sublist (top_domains buf) i j hi hj hij
    have hsub2 : [(top_domains buf).get ⟨i, hi⟩, (top_domains buf).get ⟨j, hj⟩]
        <+ List.insertionSort cntGE (domain_counts buf) :=
      hsub1.trans (by rw [hTD]; exact List.take_sublist 3 _)
    have hfeq := filter_insertionSort_eq cntGE
      (fun q => q.2 == ((top_domains buf).get ⟨i, hi⟩).2)
      (fun a b ha hb => by
        simp only [beq_iff_eq] at ha hb
        show b.2 ≤ a.2
        omega)
      (domain_counts buf)
    have hpairf :
        [(top_domains buf).get ⟨i, hi⟩, (top_domains buf).get ⟨j, hj⟩].filter
            (fun q => q.2 == ((top_domains buf).get ⟨i, hi⟩).2)
          = [(top_domains buf).get ⟨i, hi⟩, (top_domains buf).get ⟨j, hj⟩] := by
      refine List.filter_eq_self.mpr ?_
      intro a ha
      rcases List.mem_cons.mp ha with rfl | ha2
      · simp
      · rcases List.mem_cons.mp ha2 with rfl | ha3
        · rw [← heq]
          simp
        · exact absurd ha3 (List.not_mem_nil a)
    have hstep := hsub2.filter (fun q => q.2 == ((top_domains buf).get ⟨i, hi⟩).2)
    rw [hpairf, hfeq] at hstep
    exact hstep.trans (List.filter_sublist _)

theorem top_domains_selection_witness :
    (c7Buf ≠ []) ∧ TopDomainsSpec c7Buf :=
  ⟨by decide, top_domains_selection c7Buf (by decide)⟩

/-- C5: buffering exit order — a non-http event first flushes the buffer
and only then appends its own sentence, leaving an empty buffer (the
general flush-then-emit shape of the loop body), and on the bucket
`[logon@08:00, http@08:01, http@08:02, logoff@08:10]` the scan plus the
final flush yields exactly three sentences after the header, in the
order logon sentence, one web-summary sentence, logoff sentence. -/
theorem buffering_exit_order :
    (∀ (parts : List String) (buf : List Event) (e : Event), e.activity_type ≠ "http" →
        summaryStep (parts, buf) e = (parts ++ flush_web_buffer buf ++ emitted e, []))
    ∧ (c5Bucket.foldl summaryStep ([headerOf c5Bucket], [])).1
        ++ flush_web_buffer (c5Bucket.foldl summaryStep ([headerOf c5Bucket], [])).2
        = [headerOf c5Bucket, "Logged on at 08:00:00.",
           "Between 08:01:00 and 08:02:00, visited 2 websites, including site.com (2 times).",
           "Logged off at 08:10:00."]
    ∧ create_summary_from_events c5Bucket
        = "User u123 (Role: ITAdmin) on PC-01: Logged on at 08:00:00. Between 08:01:00 and 08:02:00, visited 2 websites, including site.com (2 times). Logged off at 08:10:00." :=
  ⟨summaryStep_non_http, by decide, by decide⟩

theorem buffering_exit_order_witness :
    (({ timestamp := 29400, user_id := some "u123", role := "ITAdmin", pc := "PC-01",
        activity_type := "logoff" } : Event).activity_type ≠ "http")
    ∧ summaryStep ([], c7Buf)
        { timestamp := 29400, user_id := some "u123", role := "ITAdmin", pc := "PC-01",
          activity_type := "logoff" }
      = ([] ++ flush_web_buffer c7Buf
          ++ emitted { timestamp := 29400, user_id := some "u123", role := "ITAdmin",
                       pc := "PC-01", activity_type := "logoff" }, []) :=
  ⟨by decide, buffering_exit_order.1 [] c7Buf _ (by decide)⟩

/-- C8: role enrichment — normalization is a per-row map (the left join
against the deduplicated RoleMap drops no row), a row whose `user_id` is
absent from the RoleMap gets role `"Unknown"`, and a bucket led by a
role-`"Unknown"` event produces a narrative beginning
`User {user_id} (Role: Unknown)`. -/
theorem role_enrichment (m : RoleMap) (recs : List RawAuth) (events : List Event)
    (h1 : events ≠ []) (h2 : (events.headD default).role = "Unknown") :
    RoleEnrichSpec m recs events := by
  refine ⟨by simp [normalizeAuth], ?_, ?_⟩
  · intro e he hn
    rcases List.mem_map.mp he with ⟨r, hr, rfl⟩
    rcases hu : extractUserId r.user with _ | u
    · simp [roleFor, hu]
    · have hfind := hn u (by simp [hu])
      simp [roleFor, hu, hfind]
  · rcases create_summary_head events h1 with ⟨t, ht⟩
    have hh : headerOf events
        = ("User " ++ pdStr (events.headD default).user_id ++ " (Role: Unknown)")
          ++ (" on "
            ++ (if (events.map (fun e => e.pc)).isEmpty then "Unknown PC"
                else pandasModeStr (events.map (fun e => e.pc))) ++ ":") := by
      unfold headerOf
      rw [h2]
      simp only [String.append_assoc]
      rfl
    exact ⟨_, by rw [ht, hh, String.append_assoc]⟩

theorem role_enrichment_witness :
    (normalizeAuth [("u1", "Engineer")] [⟨0, "DOM/u9", "PC-9", "Logon"⟩] ≠ [])
    ∧ (((normalizeAuth [("u1", "Engineer")]
          [⟨0, "DOM/u9", "PC-9", "Logon"⟩]).headD default).role = "Unknown")
    ∧ RoleEnrichSpec [("u1", "Engineer")] [⟨0, "DOM/u9", "PC-9", "Logon"⟩]
        (normalizeAuth [("u1", "Engineer")] [⟨0, "DOM/u9", "PC-9", "Logon"⟩]) :=
  ⟨by decide, by decide, role_enrichment _ _ _ (by decide) (by decide)⟩

end DataProcessing
